import Mathlib

/-!
# Verification of the `crud` repository layer

Shallow embedding of the data-access layer of the `shanathvemula/crud`
repository: the generic repository (`app/crud/base.py`), the comment tree
engine (`app/crud/comment.py`) and the notification grouping engine
(`app/crud/notification.py`).  Database tables are modelled as Lean lists of
row structures, SQL filters as list filters, and the SQLAlchemy session as
explicit state passing.  Timestamps are modelled as natural numbers with the
soft-delete sentinel `EPOCH = 0`.
-/

namespace Crud

/-- Timestamps.  The code uses `datetime`; only ordering and equality with the
`EPOCH` sentinel matter here, so `Nat` suffices. -/
abbrev Time := Nat

/-- `app.db.mixin.EPOCH`: the sentinel value of `deleted_at` meaning
"not deleted". -/
def EPOCH : Time := 0

/-! ## Generic repository (`app/crud/base.py`)

A row of a generic entity table: an `id` primary key, the soft-delete marker
`deleted_at`, and `data`, standing for all remaining (natural-key) columns of
the concrete model.  `filter_by(**kw)` with the full id-free field set of the
input is therefore modelled as an exact match on `data`. -/

structure Row (α : Type) where
  id : Nat
  deleted_at : Time
  data : α
deriving Repr, DecidableEq

/-- The table together with the id sequence backing the primary key. -/
structure Store (α : Type) where
  rows : List (Row α)
  nextId : Nat
deriving Repr, DecidableEq

variable {α : Type} [DecidableEq α]

/-- `CRUDBase.query` (base.py:42-49): base select, filtered by
`deleted_at == EPOCH` when the model supports soft delete (`softDel`). -/
def query (softDel : Bool) (s : Store α) : List (Row α) :=
  if softDel then s.rows.filter (fun r => r.deleted_at == EPOCH) else s.rows

/-- `CRUDBase.get` (base.py:75-82): fetch by primary key through the
soft-delete-filtered query; `None` when absent. -/
def get (softDel : Bool) (s : Store α) (id : Nat) : Option (Row α) :=
  (query softDel s).find? (fun r => r.id == id)

/-- `CRUDBase.get_all` (base.py:51-57) without the owner restriction (the
`user` argument is orthogonal to the claims considered here). -/
def get_all (softDel : Bool) (s : Store α) : List (Row α) :=
  query softDel s

/-- `CRUDBase.get_multi` (base.py:84-86): `query().filter_by(**kw)`, an
exact match of every supplied column, modelled as equality on `data`. -/
def get_multi (softDel : Bool) (s : Store α) (d : α) : List (Row α) :=
  (query softDel s).filter (fun r => r.data == d)

/-- An input shape: an optional `id` plus the id-free column values. -/
structure ObjIn (α : Type) where
  id : Option Nat
  data : α
deriving Repr, DecidableEq

/-- `MoreThanOneError` (base.py:20-21). -/
inductive RepoError where
  | moreThanOne
deriving Repr, DecidableEq

/-- `CRUDBase.get_or_create` (base.py:132-173).

* a truthy `id` (present and nonzero, matching Python truthiness of
  `data.get("id")`) short-circuits to `get`;
* otherwise the id-free fields act as an exact-match filter: one match is
  returned as is, more than one raises `MoreThanOneError`, zero matches
  creates a fresh row (with `deleted_at` at the sentinel) and returns it.

Returns the produced object (possibly `none`, as the Python function can
return `None`) together with the resulting store. -/
def get_or_create (softDel : Bool) (s : Store α) (obj : ObjIn α) :
    Except RepoError (Option (Row α) × Store α) :=
  if obj.id.getD 0 ≠ 0 then
    .ok (get softDel s (obj.id.getD 0), s)
  else
    let q := get_multi softDel s obj.data
    if q.length == 1 then
      .ok (q.head?, s)
    else if q.length > 1 then
      .error .moreThanOne
    else
      let r : Row α := ⟨s.nextId, EPOCH, obj.data⟩
      .ok (some r, ⟨s.rows ++ [r], s.nextId + 1⟩)

/-- Modelled from the spec: `SoftDeleteMixin.delete` lives in
`app/db/mixin.py`, which is not part of the sources; per the spec it stamps
`deleted_at` with the current time ("soft-delete (stamp `deleted_at`)"). -/
def softDeleteRow (r : Row α) (now : Time) : Row α :=
  { r with deleted_at := now }

/-- `CRUDBase.delete` (base.py:198-207) for a soft-delete model: fetch by id
through the default (filtered) query, stamp `deleted_at` on the fetched row,
persist, and return the row.  When `get` finds nothing the Python code would
fail on `db.delete(None)`; that path returns `none` here and is outside the
claims, which condition on a successful delete. -/
def delete (s : Store α) (id : Nat) (now : Time) :
    Option (Row α) × Store α :=
  match get true s id with
  | none => (none, s)
  | some r =>
      let r' := softDeleteRow r now
      (some r', ⟨s.rows.map (fun x => if x.id == id then r' else x), s.nextId⟩)

/-- The bypass read path: a raw fetch over the table without the soft-delete
filter (what `purge`'s session-level access or a direct table scan sees). -/
def rawGet (s : Store α) (id : Nat) : Option (Row α) :=
  s.rows.find? (fun r => r.id == id)

/-! ## Comment tree engine (`app/crud/comment.py`)

A comment row carries the columns the engine's queries and updates touch;
`body` and the audit columns other than `updated_by` decorate rows without
influencing any query, so they are not modelled. -/

structure CommentRow where
  id : Nat
  content_id : Option Nat
  parent_id : Option Nat
  created_at : Time
  deleted_at : Time
  updated_by : Option String
deriving Repr, DecidableEq

/-- comment.py:24 -/
def MAX_COMM_COUNT : Int := 25

/-- comment.py:25 -/
def MAX_SUB_COMM_COUNT : Int := 10

/-- `count = min(MAX_COMM_COUNT, max(1, count))` (comment.py:75, comment.py:423). -/
def clampCount (count : Int) : Int := min MAX_COMM_COUNT (max 1 count)

/-- `sub_count = min(MAX_SUB_COMM_COUNT, max(1, sub_count))` (comment.py:424). -/
def clampSubCount (sub_count : Int) : Int := min MAX_SUB_COMM_COUNT (max 1 sub_count)

/-- The soft-delete filter `Comment.deleted_at == EPOCH` that `self.query()`
and every level of the multi-level queries apply. -/
def aliveComments (s : List CommentRow) : List CommentRow :=
  s.filter (fun r => r.deleted_at == EPOCH)

/-- `order_by(Comment.created_at.desc())`. -/
def orderByCreatedDesc (l : List CommentRow) : List CommentRow :=
  List.insertionSort (fun a b => b.created_at ≤ a.created_at) l

/-- Result shape of `CRUDComment.get_all`: `{"comments": ..., "total": ...}`. -/
structure CommentsPage where
  comments : Option (List CommentRow)
  total : Nat
deriving Repr, DecidableEq

/-- `CRUDComment.get_all` (comment.py:45-99).  SQLAlchemy turns `== None`
into `IS NULL`, so the `content_id`/`parent_id` filters are plain `Option`
equality.  `if last_id:` and `if count:` are Python truthiness tests. -/
def comment_get_all (s : List CommentRow) (content_id comment_id last_id : Option Nat)
    (count : Int) (check_comments total_only : Bool) : CommentsPage :=
  let count := clampCount count
  let q := (aliveComments s).filter (fun r => r.content_id == content_id)
  let q := if !total_only then q.filter (fun r => r.parent_id == comment_id) else q
  let q := if check_comments then q.take 1 else q
  let total := q.length
  if !total_only && !check_comments then
    let q := orderByCreatedDesc q
    let q := if last_id.getD 0 ≠ 0 then q.filter (fun r => decide (r.id < last_id.getD 0)) else q
    let q := if count ≠ 0 then q.take count.toNat else q
    ⟨some q, total⟩
  else
    ⟨none, total⟩

/-- The level-1 query of `get_multi_levels` (comment.py:426-451): alive rows
of the content, either the single row `id == comment_id` (when `include_cid`
and a truthy `comment_id`) or the rows with `parent_id == comment_id`
cursor-bounded by `last_id`, newest first, limited to the clamped `count`. -/
def gml_l1 (s : List CommentRow) (content_id comment_id : Option Nat)
    (include_cid : Bool) (last_id : Option Nat) (count : Int) : List CommentRow :=
  let count := clampCount count
  let base := (aliveComments s).filter (fun r => r.content_id == content_id)
  let base :=
    if include_cid && comment_id.getD 0 != 0 then
      base.filter (fun r => some r.id == comment_id)
    else
      (base.filter (fun r => r.parent_id == comment_id)).filter
        (fun r => if last_id.getD 0 ≠ 0 then decide (r.id < last_id.getD 0) else true)
  (orderByCreatedDesc base).take count.toNat

/-- The lateral sub-comment queries of `get_multi_levels` (comment.py:453-485),
shared by levels 2 and 3: alive children of `pid`, newest first, limited to
the clamped `sub_count`. -/
def gml_sub (s : List CommentRow) (pid : Nat) (sub_count : Int) : List CommentRow :=
  let sub := clampSubCount sub_count
  ((orderByCreatedDesc ((aliveComments s).filter (fun r => r.parent_id == some pid)))).take sub.toNat

/-- One flattened output row of `get_multi_levels`: the id columns of the up
to three levels it carries (`l1_id`, `l2_id`, `l3_id`), `none` standing for
the SQL `NULL` padding of the outer joins.  The projected decoration columns
(bodies, authors, timestamps, per-level totals) do not influence the tree
shape and are not modelled. -/
structure FlatRow where
  l1_id : Option Nat
  l2_id : Option Nat
  l3_id : Option Nat
deriving Repr, DecidableEq

/-- `CRUDComment.get_multi_levels` (comment.py:396-530): the flattened rows
produced by `l1 OUTER JOIN LATERAL l2 OUTER JOIN LATERAL l3`: one row per
deepest populated leaf, with `NULL`-padded deeper levels. -/
def get_multi_levels (s : List CommentRow) (content_id comment_id : Option Nat)
    (include_cid : Bool) (last_id : Option Nat) (count sub_count : Int) :
    List FlatRow :=
  (gml_l1 s content_id comment_id include_cid last_id count).flatMap (fun a =>
    let l2s := gml_sub s a.id sub_count
    if l2s.isEmpty then [⟨some a.id, none, none⟩]
    else l2s.flatMap (fun b =>
      let l3s := gml_sub s b.id sub_count
      if l3s.isEmpty then [⟨some a.id, some b.id, none⟩]
      else l3s.map (fun c => ⟨some a.id, some b.id, some c.id⟩)))

/-- The id-gathering query of `CRUDComment.delete` (comment.py:138-172): the
alive target (`l1`), its alive children (`l2`, lateral on `l1`), their alive
children (`l3`, lateral on `l2`), outer-joined, unnested and deduplicated
into one id set.  Duplicate removal (`distinct`) is immaterial to the `IN`
filter consuming the list, so the plain concatenation is kept. -/
def gatherIds (s : List CommentRow) (id : Nat) : List Nat :=
  let l1 := ((aliveComments s).filter (fun r => r.id == id)).map (·.id)
  let l2 := ((aliveComments s).filter (fun r => l1.any (fun i => r.parent_id == some i))).map (·.id)
  let l3 := ((aliveComments s).filter (fun r => l2.any (fun i => r.parent_id == some i))).map (·.id)
  l1 ++ l2 ++ l3

/-- `CRUDComment.delete` (comment.py:128-185): gather the subtree ids with
one query, then one bulk `UPDATE` stamping `deleted_at = now` and
`updated_by = user` on every gathered id.  The Python function body has no
`return` statement, so the produced value is `None`. -/
def comment_delete (s : List CommentRow) (id : Nat) (user : String) (now : Time) :
    Option CommentRow × List CommentRow :=
  let ids := gatherIds s id
  (none,
    s.map (fun r =>
      if ids.contains r.id then { r with deleted_at := now, updated_by := some user } else r))

/-! ## Nested comment reconstruction
(`format_single_comment` / `format_nested_comments`, comment.py:235-394)

The output schemas `CommentL1Out`/`CommentL2Out`/`CommentL3Out` are modelled
level by level, keeping only the identity and child-list structure the
folding manipulates (the enrichment fields — body, author, reaction,
sub-totals — decorate a node without affecting the tree shape). -/

structure L3Node where
  id : Nat
deriving Repr, DecidableEq

structure L2Node where
  id : Nat
  comments : List L3Node
deriving Repr, DecidableEq

structure L1Node where
  id : Nat
  comments : List L2Node
deriving Repr, DecidableEq

/-- Python truthiness of an optional id column: `if comment.l1_id:` is false
both for `NULL` and for `0`. -/
def truthyId : Option Nat → Option Nat
  | some 0 => none
  | some (n + 1) => some (n + 1)
  | none => none

/-- `format_single_comment` at level 3 (comment.py:264-304): a first
occurrence of the id appends a fresh node, a later occurrence is reused. -/
def addL3 (ns : List L3Node) (k : Nat) : List L3Node :=
  if ns.any (fun n => n.id == k) then ns else ns ++ [⟨k⟩]

/-- `format_single_comment` at level 2. -/
def addL2 (ns : List L2Node) (j : Nat) : List L2Node :=
  if ns.any (fun n => n.id == j) then ns else ns ++ [⟨j, []⟩]

/-- `format_single_comment` at level 1. -/
def addL1 (ns : List L1Node) (i : Nat) : List L1Node :=
  if ns.any (fun n => n.id == i) then ns else ns ++ [⟨i, []⟩]

/-- Append the level-2 id `j` under the level-1 node `a`.  The Python code
addresses the node positionally through `l1_index[a]["list_id"]`, which by
construction is exactly the position of the unique node carrying id `a`, so
addressing by id is equivalent. -/
def addL2At (ns : List L1Node) (a j : Nat) : List L1Node :=
  ns.map (fun n => if n.id == a then ⟨n.id, addL2 n.comments j⟩ else n)

/-- Append the level-3 id `k` under the level-2 node `b` of the level-1 node
`a`, again addressing by id where the Python code uses the stored positional
indices. -/
def addL3At (ns : List L1Node) (a b k : Nat) : List L1Node :=
  ns.map (fun n =>
    if n.id == a then
      ⟨n.id, n.comments.map (fun m => if m.id == b then ⟨m.id, addL3 m.comments k⟩ else m)⟩
    else n)

/-- The loop state of `format_nested_comments` (comment.py:336-388): the
level-1 output list plus the variables that survive across iterations:
`l1_index_obj` (the id of the level-1 node last indexed) and
`l2_index_obj`/`l2_comments` (the level-2 node last indexed, recorded with
the level-1 node whose child list was grabbed alongside it). -/
structure FmtState where
  out : List L1Node
  cur1 : Option Nat
  cur2 : Option (Nat × Nat)
deriving Repr, DecidableEq

/-- The `if comment.l1_id:` block of the loop (comment.py:346-357). -/
def fmtStep1 (st : FmtState) (r : FlatRow) : FmtState :=
  match truthyId r.l1_id with
  | some i => { st with out := addL1 st.out i, cur1 := some i }
  | none => st

/-- The `if comment.l2_id:` block (comment.py:359-373).  A block whose stale
context variable was never set (`cur1` still `none`) is a `NameError` in
Python; it is modelled as a skip and is unreachable for rows produced by
`get_multi_levels`, whose deeper ids are only populated under their
ancestors. -/
def fmtStep2 (st : FmtState) (r : FlatRow) : FmtState :=
  match truthyId r.l2_id, st.cur1 with
  | some j, some a => { st with out := addL2At st.out a j, cur2 := some (a, j) }
  | _, _ => st

/-- The `if comment.l3_id:` block (comment.py:375-388). -/
def fmtStep3 (st : FmtState) (r : FlatRow) : FmtState :=
  match truthyId r.l3_id, st.cur2 with
  | some k, some (a, b) => { st with out := addL3At st.out a b k }
  | _, _ => st

/-- One iteration of the `for comment in comments` loop of
`format_nested_comments`: the three `if comment.lN_id:` blocks in order. -/
def fmtStep (st : FmtState) (r : FlatRow) : FmtState :=
  fmtStep3 (fmtStep2 (fmtStep1 st r) r) r

/-- `format_nested_comments` (comment.py:306-394): fold the flattened rows
into the nested level-1 output list. -/
def format_nested_comments (rows : List FlatRow) : List L1Node :=
  (rows.foldl fmtStep ⟨[], none, none⟩).out

/-- The ids of the level-1 output nodes. -/
def l1Ids (ns : List L1Node) : List Nat := ns.map L1Node.id

/-- The ids of the children of the (first) level-1 node carrying id `a`. -/
def l2IdsUnder (ns : List L1Node) (a : Nat) : List Nat :=
  match ns.find? (fun n => n.id == a) with
  | some n => n.comments.map L2Node.id
  | none => []

/-- The ids of the children of the level-2 node `b` under the level-1 node
`a`. -/
def l3IdsUnder (ns : List L1Node) (a b : Nat) : List Nat :=
  match ns.find? (fun n => n.id == a) with
  | some n =>
      match n.comments.find? (fun m => m.id == b) with
      | some m => m.comments.map L3Node.id
      | none => []
  | none => []

/-- Every id occurs at most once at its level of the output tree: one node
per id per position in the tree. -/
def NodupLevels (ns : List L1Node) : Prop :=
  (ns.map L1Node.id).Nodup ∧
  ∀ n ∈ ns, (n.comments.map L2Node.id).Nodup ∧
    ∀ m ∈ n.comments, (m.comments.map L3Node.id).Nodup

/-- The row's ids are linked in the output: its level-1 id heads a top-level
node, its level-2 id is a child of that node, and its level-3 id a child of
that level-2 node. -/
def RowLinked (r : FlatRow) (ns : List L1Node) : Prop :=
  (∀ a, truthyId r.l1_id = some a → a ∈ l1Ids ns) ∧
  (∀ a b, truthyId r.l1_id = some a → truthyId r.l2_id = some b →
    b ∈ l2IdsUnder ns a) ∧
  (∀ a b c, truthyId r.l1_id = some a → truthyId r.l2_id = some b →
    truthyId r.l3_id = some c → c ∈ l3IdsUnder ns a b)

/-! ## Notification grouping engine (`app/crud/notification.py`) -/

/-- `NotificationTypeEnum` (from `app/schemas/notification.py`, as used by
`create_new`). -/
inductive NotificationType where
  | COMMENT_ON_CONTENT
  | LIKE_ON_CONTENT
  | COMMENT_ON_COMMENT
  | LIKE_ON_COMMENT
  | NEW_CONNECTION_REQ
  | CONNECTION_REQ_ACCEPT
deriving Repr, DecidableEq

/-- notification.py:25 -/
def MAX_GROUP_USERS : Nat := 3

/-- The four types whose meta carries the grouped `users` list
(`format_notification_meta`, notification.py:268-282, sets
`users = [user]` exactly for these). -/
def isGroupedType : NotificationType → Bool
  | .COMMENT_ON_CONTENT => true
  | .LIKE_ON_CONTENT => true
  | .COMMENT_ON_COMMENT => true
  | .LIKE_ON_COMMENT => true
  | .NEW_CONNECTION_REQ => false
  | .CONNECTION_REQ_ACCEPT => false

/-- A notification row.  `meta` is modelled by its two load-bearing parts:
`meta_users`, the stored actor entries reduced to their `uid`s, and
`meta_users_count`.  For connection-type rows the list is empty. -/
structure NotifRow where
  id : Nat
  user_id : String
  ntype : NotificationType
  entity_id : Nat
  notified_at : Time
  read_at : Option Time
  deleted_at : Time
  meta_users : List String
  meta_users_count : Nat
deriving Repr, DecidableEq

/-- The `for i, user in enumerate(db_obj.meta["users"])` loop of `create_new`
(notification.py:220-222): `meta_user_exist` is overwritten on every match,
so it ends up holding the index of the *last* entry whose `uid` equals the
acting user's. -/
def lastMatchIdx (a : String) : List String → Option Nat
  | [] => none
  | u :: us =>
      match lastMatchIdx a us with
      | some i => some (i + 1)
      | none => if u = a then some 0 else none

/-- The grouped-meta merge of `create_new` (notification.py:218-237): when
the actor is already stored, pop their old entry and keep `users_count`;
otherwise increment it.  Either way the actor comes first, followed by the
first `MAX_GROUP_USERS - 1` remaining stored entries. -/
def mergeUsers (actor : String) (users : List String) (count : Nat) :
    List String × Nat :=
  match lastMatchIdx actor users with
  | some i => (actor :: (users.eraseIdx i).take (MAX_GROUP_USERS - 1), count)
  | none => (actor :: users.take (MAX_GROUP_USERS - 1), count + 1)

/-- The slot lookup of `create_new` (notification.py:203-213): the base query
(soft-delete filter) restricted to `(user_id, type, entity_id)`.

The statement `query.filter(Notification.read_at.is_(None))` at
notification.py:209 builds a new select and discards it (SQLAlchemy
statements are immutable), so the unread restriction is *not* part of the
executed query; neither is the discarded `order_by` of notification.py:211. -/
def notifMatches (db : List NotifRow) (uid : String) (ntype : NotificationType)
    (entity : Nat) : List NotifRow :=
  db.filter (fun r =>
    r.deleted_at == EPOCH && r.user_id == uid &&
      decide (r.ntype = ntype) && r.entity_id == entity)

/-- `CRUDNotification.create_new` (notification.py:150-258) over a store
`db` with id sequence `nextId`.  `actor` is the acting user's uid (the
`meta.user` of every grouped meta shape); `entity` the id the event targets,
from which notification.py:180-194 derives `entity_id`; `now` the value of
`datetime.utcnow()`.

Returns (returned object, new store, new id sequence).

* matched and `delete_only`: soft-delete the match through `self.delete`;
* matched otherwise: merge — grouped metas through `mergeUsers`, connection
  metas carry no user list; `notified_at` is refreshed to `now` except when
  `force_update` is set on a `NEW_CONNECTION_REQ` (the key popped at
  notification.py:196-201), in which case the row keeps its old value
  (`create_or_update` copies the unchanged field back);
* no match and not `delete_only`: insert a fresh unread row; grouped metas
  start with `users = [actor]`, `users_count = 1` (notification.py:245-251). -/
def create_new (db : List NotifRow) (nextId : Nat) (uid : String)
    (ntype : NotificationType) (actor : String) (entity : Nat)
    (force_update delete_only : Bool) (now : Time) :
    Option NotifRow × List NotifRow × Nat :=
  let db_obj := (notifMatches db uid ntype entity).head?
  match delete_only, db_obj with
  | true, some o =>
      let o' := { o with deleted_at := now }
      (some o', db.map (fun r => if r.id == o.id then o' else r), nextId)
  | true, none => (none, db, nextId)
  | false, some o =>
      let nt :=
        if force_update = true ∧ ntype = NotificationType.NEW_CONNECTION_REQ then
          o.notified_at
        else now
      let uc :=
        if isGroupedType ntype then mergeUsers actor o.meta_users o.meta_users_count
        else ([], 0)
      let o' := { o with notified_at := nt, meta_users := uc.1, meta_users_count := uc.2 }
      (some o', db.map (fun r => if r.id == o.id then o' else r), nextId)
  | false, none =>
      let us := if isGroupedType ntype then [actor] else []
      let cnt := if isGroupedType ntype then 1 else 0
      let r : NotifRow := ⟨nextId, uid, ntype, entity, now, none, EPOCH, us, cnt⟩
      (some r, db ++ [r], nextId + 1)

/-! ## Theorems -/

/-- C10: `CRUDComment.delete` always returns `None` — the Python body
(comment.py:128-185) has no `return` statement, despite the `-> Comment`
annotation and the docstring "Returns the deleted comment object", and unlike
`CRUDBase.delete`, which does return the removed row. -/
theorem c10_comment_delete_returns_none :
    ∀ (s : List CommentRow) (id : Nat) (user : String) (now : Time),
      (comment_delete s id user now).1 = none := by
  intro s id user now
  rfl

/-- C1 is false of the code: the unread restriction built at
notification.py:209 is discarded (`query.filter(...)` is generative and its
result is never assigned), so an already-read row *does* match.  On a store
holding exactly one notification for the slot `("u", LIKE_ON_CONTENT, 7)`
with `read_at = some 4`, a new like by a fresh actor with `force_update`
unset merges into that read row — the store still holds a single row, still
marked read — instead of creating a fresh unread row as the claim states. -/
theorem c1_read_slot_still_matches :
    create_new [⟨1, "u", .LIKE_ON_CONTENT, 7, 3, some 4, EPOCH, ["a"], 1⟩] 2
        "u" .LIKE_ON_CONTENT "b" 7 false false 9 =
      (some ⟨1, "u", .LIKE_ON_CONTENT, 7, 9, some 4, EPOCH, ["b", "a"], 2⟩,
       [⟨1, "u", .LIKE_ON_CONTENT, 7, 9, some 4, EPOCH, ["b", "a"], 2⟩], 2) := by
  rfl

/-- C6: `get_or_create` on an id-free input is an exact-match lookup: zero
matches create and return a fresh row, exactly one match is returned with the
store untouched, and the `MoreThanOneError` is raised if and only if more
than one row matches the filter. -/
theorem c6_get_or_create_cases {α : Type} [DecidableEq α] (softDel : Bool)
    (s : Store α) (d : α) :
    ((get_multi softDel s d).length = 0 →
      get_or_create softDel s ⟨none, d⟩ =
        .ok (some ⟨s.nextId, EPOCH, d⟩, ⟨s.rows ++ [⟨s.nextId, EPOCH, d⟩], s.nextId + 1⟩)) ∧
    (∀ r : Row α, get_multi softDel s d = [r] →
      get_or_create softDel s ⟨none, d⟩ = .ok (some r, s)) ∧
    ((∃ e, get_or_create softDel s ⟨none, d⟩ = .error e) ↔
      1 < (get_multi softDel s d).length) := by
  refine ⟨?_, ?_, ?_⟩
  · intro h0
    simp [get_or_create, h0]
  · intro r hr
    simp [get_or_create, hr]
  · constructor
    · rintro ⟨e, he⟩
      by_contra hle
      push_neg at hle
      interval_cases h : (get_multi softDel s d).length
      · simp [get_or_create, h] at he
      · simp [get_or_create, h] at he
    · intro h1
      refine ⟨.moreThanOne, ?_⟩
      simp only [get_or_create]
      have hne : ((get_multi softDel s d).length == 1) = false := by
        simp; omega
      simp [hne, h1]

/-- Witness for C6 at concrete stores: empty store (create), a one-match
store (return as is), and a two-match store (ambiguous error). -/
theorem c6_get_or_create_cases_witness :
    (get_or_create true (⟨[], 5⟩ : Store String) ⟨none, "sk"⟩ =
      .ok (some ⟨5, EPOCH, "sk"⟩, ⟨[⟨5, EPOCH, "sk"⟩], 6⟩)) ∧
    (get_or_create true (⟨[⟨1, EPOCH, "sk"⟩], 2⟩ : Store String) ⟨none, "sk"⟩ =
      .ok (some ⟨1, EPOCH, "sk"⟩, ⟨[⟨1, EPOCH, "sk"⟩], 2⟩)) ∧
    (∃ e, get_or_create true (⟨[⟨1, EPOCH, "sk"⟩, ⟨2, EPOCH, "sk"⟩], 3⟩ : Store String)
        ⟨none, "sk"⟩ = .error e) := by
  refine ⟨?_, ?_, ?_⟩
  · exact (c6_get_or_create_cases true ⟨[], 5⟩ "sk").1 (by rfl)
  · exact (c6_get_or_create_cases true ⟨[⟨1, EPOCH, "sk"⟩], 2⟩ "sk").2.1 ⟨1, EPOCH, "sk"⟩ (by rfl)
  · exact (c6_get_or_create_cases true ⟨[⟨1, EPOCH, "sk"⟩, ⟨2, EPOCH, "sk"⟩], 3⟩ "sk").2.2.mpr
      (by decide)

/-- C7: `get_or_create` is idempotent on natural-key input: starting from a
store with no matching row, the first call creates a row and the second call
with the identical id-free input returns the very same row, leaving the
store as the first call left it — exactly one row was created in total. -/
theorem c7_get_or_create_idempotent {α : Type} [DecidableEq α] (softDel : Bool)
    (s : Store α) (d : α) (h : get_multi softDel s d = []) :
    ∃ (r : Row α) (s₂ : Store α),
      get_or_create softDel s ⟨none, d⟩ = .ok (some r, s₂) ∧
      get_or_create softDel s₂ ⟨none, d⟩ = .ok (some r, s₂) ∧
      s₂.rows.length = s.rows.length + 1 := by
  refine ⟨⟨s.nextId, EPOCH, d⟩, ⟨s.rows ++ [⟨s.nextId, EPOCH, d⟩], s.nextId + 1⟩, ?_, ?_, by simp⟩
  · have h0 : (get_multi softDel s d).length = 0 := by simp [h]
    simp [get_or_create, h, h0]
  · have hq : get_multi softDel (⟨s.rows ++ [⟨s.nextId, EPOCH, d⟩], s.nextId + 1⟩ : Store α) d
        = [⟨s.nextId, EPOCH, d⟩] := by
      simp only [get_multi, query] at h ⊢
      cases softDel <;> simp_all [List.filter_append]
    simp [get_or_create, hq]

/-- Witness for C7: the empty store and the natural key `"sk"`. -/
theorem c7_get_or_create_idempotent_witness :
    ∃ (r : Row String) (s₂ : Store String),
      get_or_create true (⟨[], 0⟩ : Store String) ⟨none, "sk"⟩ = .ok (some r, s₂) ∧
      get_or_create true s₂ ⟨none, "sk"⟩ = .ok (some r, s₂) ∧
      s₂.rows.length = ([] : List (Row String)).length + 1 :=
  c7_get_or_create_idempotent true ⟨[], 0⟩ "sk" (by rfl)

/-- Replacing every row carrying `id` by `r'` makes `r'` the first row that a
raw scan finds under `id`, provided some row carried `id`. -/
theorem find?_map_replace {α : Type} [DecidableEq α] (l : List (Row α)) (id : Nat)
    (r' : Row α) (hid : r'.id = id) (hex : ∃ x ∈ l, x.id = id) :
    (l.map (fun x => if x.id == id then r' else x)).find? (fun x => x.id == id) = some r' := by
  induction l with
  | nil => simp at hex
  | cons a l ih =>
    by_cases ha : a.id = id
    · simp [ha, hid]
    · have hex' : ∃ x ∈ l, x.id = id := by
        rcases hex with ⟨x, hx, hxid⟩
        rcases List.mem_cons.mp hx with rfl | hxl
        · exact absurd hxid ha
        · exact ⟨x, hxl, hxid⟩
      simpa [ha] using ih hex'

/-- C8: soft-delete invariant.  Under the primary-key uniqueness of `id`,
once `delete` succeeds on a soft-delete entity the stamped row's
`deleted_at` is `now`, no longer the `EPOCH` sentinel, the row is gone from
every default read path — `query`, `get`, `get_all`, `get_multi` — yet it is
still stored and a raw bypass fetch still returns it. -/
theorem c8_soft_delete_invariant {α : Type} [DecidableEq α] (s : Store α) (id : Nat)
    (now : Time) (r : Row α) (hnow : now ≠ EPOCH)
    (_hids : (s.rows.map Row.id).Nodup) (hget : get true s id = some r) :
    ∃ (r' : Row α) (s' : Store α),
      delete s id now = (some r', s') ∧
      r'.deleted_at = now ∧ r'.deleted_at ≠ EPOCH ∧
      get true s' id = none ∧
      r' ∉ get_all true s' ∧
      (∀ x ∈ query true s', x.id ≠ id) ∧
      (∀ d : α, r' ∉ get_multi true s' d) ∧
      rawGet s' id = some r' := by
  have hrid : r.id = id := by
    have := List.find?_some hget
    simpa using this
  have hrmem : r ∈ s.rows := by
    have hq := List.mem_of_find?_eq_some hget
    simp only [query, if_pos rfl] at hq
    exact List.mem_of_mem_filter hq
  refine ⟨softDeleteRow r now,
    ⟨s.rows.map (fun x => if x.id == id then softDeleteRow r now else x), s.nextId⟩,
    ?_, rfl, by simpa [softDeleteRow] using hnow, ?_, ?_, ?_, ?_, ?_⟩
  · simp only [delete, hget]
  · -- absent from `get`
    apply List.find?_eq_none.mpr
    intro x hx
    simp only [query, if_true] at hx
    rcases List.mem_filter.mp hx with ⟨hxm, hxa⟩
    rcases List.mem_map.mp hxm with ⟨y, _, rfl⟩
    by_cases hy : y.id = id
    · simp only [hy, beq_self_eq_true, if_pos] at hxa ⊢
      simp [softDeleteRow] at hxa
      exact absurd hxa hnow
    · simp [hy]
  · -- absent from `get_all`
    intro hmem
    simp only [get_all, query, if_pos rfl] at hmem
    rcases List.mem_filter.mp hmem with ⟨_, hxa⟩
    simp [softDeleteRow] at hxa
    exact hnow hxa
  · -- every survivor of the default query carries a different id
    intro x hx
    simp only [query, if_pos rfl] at hx
    rcases List.mem_filter.mp hx with ⟨hxm, hxa⟩
    rcases List.mem_map.mp hxm with ⟨y, _, rfl⟩
    by_cases hy : y.id = id
    · simp only [hy, beq_self_eq_true, if_pos] at hxa
      simp [softDeleteRow] at hxa
      exact absurd hxa hnow
    · simp [hy]
  · -- absent from every `get_multi` filter
    intro dta hmem
    simp only [get_multi] at hmem
    rcases List.mem_filter.mp hmem with ⟨hq, _⟩
    simp only [query, if_pos rfl] at hq
    rcases List.mem_filter.mp hq with ⟨_, hxa⟩
    simp [softDeleteRow] at hxa
    exact hnow hxa
  · -- still reachable through the bypass path
    exact find?_map_replace s.rows id (softDeleteRow r now) (by simpa [softDeleteRow]) ⟨r, hrmem, hrid⟩

/-- Witness for C8: a one-row store, deleting id 1 at time 9. -/
theorem c8_soft_delete_invariant_witness :
    ∃ (r' : Row String) (s' : Store String),
      delete (⟨[⟨1, EPOCH, "a"⟩], 2⟩ : Store String) 1 9 = (some r', s') ∧
      r'.deleted_at = 9 ∧ r'.deleted_at ≠ EPOCH ∧
      get true s' 1 = none ∧
      r' ∉ get_all true s' ∧
      (∀ x ∈ query true s', x.id ≠ 1) ∧
      (∀ d : String, r' ∉ get_multi true s' d) ∧
      rawGet s' 1 = some r' :=
  c8_soft_delete_invariant ⟨[⟨1, EPOCH, "a"⟩], 2⟩ 1 9 ⟨1, EPOCH, "a"⟩
    (by decide) (by simp) (by rfl)

/-- C5: the comment retrieval operations clamp their page sizes server-side:
the level-1 limit stays in `[1, 25]` and the sub-comment limit in `[1, 10]`
for every client-supplied value, `get_all` and `get_multi_levels` never
return more than 25 level-1 rows, `count = 1000` behaves as the ceiling 25,
and `count = 0` behaves as the floor 1 — never as a zero limit. -/
theorem c5_pagination_clamps :
    (∀ count : Int, 1 ≤ clampCount count ∧ clampCount count ≤ 25) ∧
    (∀ sub_count : Int, 1 ≤ clampSubCount sub_count ∧ clampSubCount sub_count ≤ 10) ∧
    (∀ (s : List CommentRow) (cid pid lid : Option Nat) (count : Int)
        (cc tot : Bool) (l : List CommentRow),
      (comment_get_all s cid pid lid count cc tot).comments = some l → l.length ≤ 25) ∧
    (∀ (s : List CommentRow) (cid pid lid : Option Nat) (cc tot : Bool),
      comment_get_all s cid pid lid 0 cc tot = comment_get_all s cid pid lid 1 cc tot) ∧
    (∀ (s : List CommentRow) (cid pid lid : Option Nat) (cc tot : Bool),
      comment_get_all s cid pid lid 1000 cc tot = comment_get_all s cid pid lid 25 cc tot) ∧
    (∀ (s : List CommentRow) (cid pid : Option Nat) (inc : Bool) (lid : Option Nat)
        (count : Int), (gml_l1 s cid pid inc lid count).length ≤ 25) ∧
    (∀ (s : List CommentRow) (pid : Nat) (sub_count : Int),
      (gml_sub s pid sub_count).length ≤ 10) ∧
    (∀ (s : List CommentRow) (cid pid : Option Nat) (inc : Bool) (lid : Option Nat)
        (sub_count : Int),
      get_multi_levels s cid pid inc lid 0 sub_count =
        get_multi_levels s cid pid inc lid 1 sub_count) ∧
    (∀ (s : List CommentRow) (cid pid : Option Nat) (inc : Bool) (lid : Option Nat)
        (count : Int),
      get_multi_levels s cid pid inc lid count 0 =
        get_multi_levels s cid pid inc lid count 1) := by
  have hc : ∀ count : Int, 1 ≤ clampCount count ∧ clampCount count ≤ 25 := by
    intro count
    simp only [clampCount, MAX_COMM_COUNT]
    omega
  have hs : ∀ sub_count : Int, 1 ≤ clampSubCount sub_count ∧ clampSubCount sub_count ≤ 10 := by
    intro sub_count
    simp only [clampSubCount, MAX_SUB_COMM_COUNT]
    omega
  refine ⟨hc, hs, ?_, ?_, ?_, ?_, ?_, ?_, ?_⟩
  · intro s cid pid lid count cc tot l h
    simp only [comment_get_all] at h
    split at h
    · have hne : clampCount count ≠ 0 := by have := hc count; omega
      rw [if_pos hne] at h
      injection h with h
      subst h
      have h25 := (hc count).2
      simp only [List.length_take]
      omega
    · simp at h
  · intro s cid pid lid cc tot
    rfl
  · intro s cid pid lid cc tot
    rfl
  · intro s cid pid inc lid count
    have h25 := (hc count).2
    simp only [gml_l1, List.length_take]
    omega
  · intro s pid sub_count
    have h10 := (hs sub_count).2
    simp only [gml_sub, List.length_take]
    omega
  · intro s cid pid inc lid sub_count
    rfl
  · intro s cid pid inc lid count
    rfl

/-- Witness for C5: the result-length bound applied at a concrete call with
`count = 50`. -/
theorem c5_pagination_clamps_witness :
    ([] : List CommentRow).length ≤ 25 :=
  c5_pagination_clamps.2.2.1 [] none none none 50 false false [] (by rfl)

/-- The spec's 3-level tree: root comment 1 on content 100, level-2 children
2 and 3, level-3 grandchildren 4, 5 and 6 under child 2 — six rows, all
alive. -/
def sixRowTree : List CommentRow :=
  [⟨1, some 100, none, 1, EPOCH, none⟩,
   ⟨2, some 100, some 1, 2, EPOCH, none⟩,
   ⟨3, some 100, some 1, 3, EPOCH, none⟩,
   ⟨4, some 100, some 2, 4, EPOCH, none⟩,
   ⟨5, some 100, some 2, 5, EPOCH, none⟩,
   ⟨6, some 100, some 2, 6, EPOCH, none⟩]

/-- C4: `CRUDComment.delete` soft-deletes the whole subtree in one
operation: the single gathering query collects the ids of the non-deleted
target, its alive direct children and their alive children; the single bulk
update stamps `deleted_at = now` and `updated_by = user` on every gathered
id; afterwards no gathered id survives a default soft-delete-filtered read,
and on the concrete 3-level 6-comment tree nothing stays visible. -/
theorem c4_subtree_soft_delete (s : List CommentRow) (id : Nat) (user : String)
    (now : Time) (hnow : now ≠ EPOCH) :
    (∀ r ∈ s, r.deleted_at = EPOCH → r.id = id → r.id ∈ gatherIds s id) ∧
    (∀ r c, r ∈ s → r.deleted_at = EPOCH → r.id = id →
      c ∈ s → c.deleted_at = EPOCH → c.parent_id = some id →
      c.id ∈ gatherIds s id) ∧
    (∀ r c g, r ∈ s → r.deleted_at = EPOCH → r.id = id →
      c ∈ s → c.deleted_at = EPOCH → c.parent_id = some id →
      g ∈ s → g.deleted_at = EPOCH → g.parent_id = some c.id →
      g.id ∈ gatherIds s id) ∧
    (∀ x ∈ (comment_delete s id user now).2, x.id ∈ gatherIds s id →
      x.deleted_at = now ∧ x.updated_by = some user) ∧
    (∀ x ∈ aliveComments (comment_delete s id user now).2, x.id ∉ gatherIds s id) ∧
    aliveComments (comment_delete sixRowTree 1 "u" 9).2 = [] := by
  have hl1 : ∀ r ∈ s, r.deleted_at = EPOCH → r.id = id →
      r.id ∈ ((aliveComments s).filter (fun r => r.id == id)).map (fun x => x.id) := by
    intro r hr ha hid
    exact List.mem_map.mpr ⟨r, List.mem_filter.mpr
      ⟨List.mem_filter.mpr ⟨hr, by simp [ha]⟩, by simp [hid]⟩, rfl⟩
  have hl2 : ∀ r c, r ∈ s → r.deleted_at = EPOCH → r.id = id →
      c ∈ s → c.deleted_at = EPOCH → c.parent_id = some id →
      c.id ∈ ((aliveComments s).filter (fun r =>
        (((aliveComments s).filter (fun r => r.id == id)).map (fun x => x.id)).any
          (fun i => r.parent_id == some i))).map (fun x => x.id) := by
    intro r c hr har hid hcm hca hcp
    refine List.mem_map.mpr ⟨c, List.mem_filter.mpr
      ⟨List.mem_filter.mpr ⟨hcm, by simp [hca]⟩, ?_⟩, rfl⟩
    exact List.any_eq_true.mpr ⟨id, hid ▸ hl1 r hr har hid, by simp [hcp]⟩
  refine ⟨?_, ?_, ?_, ?_, ?_, by rfl⟩
  · intro r hr ha hid
    simp only [gatherIds, List.mem_append]
    exact Or.inl (Or.inl (hl1 r hr ha hid))
  · intro r c hr har hid hcm hca hcp
    simp only [gatherIds, List.mem_append]
    exact Or.inl (Or.inr (hl2 r c hr har hid hcm hca hcp))
  · intro r c g hr har hid hcm hca hcp hgm hga hgp
    simp only [gatherIds, List.mem_append]
    refine Or.inr ?_
    refine List.mem_map.mpr ⟨g, List.mem_filter.mpr
      ⟨List.mem_filter.mpr ⟨hgm, by simp [hga]⟩, ?_⟩, rfl⟩
    refine List.any_eq_true.mpr ⟨c.id, hl2 r c hr har hid hcm hca hcp, by simp [hgp]⟩
  · intro x hx hix
    simp only [comment_delete] at hx
    rcases List.mem_map.mp hx with ⟨y, _, rfl⟩
    by_cases hy : y.id ∈ gatherIds s id
    · rw [if_pos (by simpa using hy)]
      exact ⟨rfl, rfl⟩
    · rw [if_neg (by simpa using hy)] at hix
      exact absurd hix hy
  · intro x hx hix
    rcases List.mem_filter.mp hx with ⟨hxm, hxa⟩
    simp only [comment_delete] at hxm
    rcases List.mem_map.mp hxm with ⟨y, _, rfl⟩
    by_cases hy : y.id ∈ gatherIds s id
    · rw [if_pos (by simpa using hy)] at hxa
      simp only [beq_iff_eq] at hxa
      exact hnow hxa
    · rw [if_neg (by simpa using hy)] at hix
      exact absurd hix hy

/-- Witness for C4: the 3-level, 6-comment tree — after deleting the root,
no row of the tree survives the default soft-delete filter. -/
theorem c4_subtree_soft_delete_witness :
    aliveComments (comment_delete sixRowTree 1 "u" 9).2 = [] :=
  (c4_subtree_soft_delete sixRowTree 1 "u" 9 (by decide)).2.2.2.2.2

/-- The overwriting search of notification.py:220-222 finds nothing exactly
when the acting uid is not among the stored entries. -/
theorem lastMatchIdx_eq_none (a : String) (l : List String) :
    lastMatchIdx a l = none ↔ a ∉ l := by
  induction l with
  | nil => simp [lastMatchIdx]
  | cons u us ih =>
    rw [List.mem_cons]
    simp only [lastMatchIdx]
    cases h : lastMatchIdx a us with
    | some i =>
      have hin : a ∈ us := by
        by_contra hc
        rw [← ih] at hc
        exact absurd h (by simp [hc])
      simp [hin]
    | none =>
      have hnotin : a ∉ us := ih.mp h
      by_cases hu : u = a
      · simp [hu]
      · simp [hu, hnotin, Ne.symm hu]

/-- On a duplicate-free stored list, popping the found index is exactly
`List.erase` of the acting uid. -/
theorem lastMatchIdx_eraseIdx (a : String) (l : List String) (hnd : l.Nodup)
    (hm : a ∈ l) :
    ∃ i, lastMatchIdx a l = some i ∧ l.eraseIdx i = l.erase a := by
  induction l with
  | nil => simp at hm
  | cons u us ih =>
    rcases List.mem_cons.mp hm with rfl | hus
    · have hnotus : a ∉ us := (List.nodup_cons.mp hnd).1
      have hnone : lastMatchIdx a us = none := (lastMatchIdx_eq_none a us).mpr hnotus
      exact ⟨0, by simp [lastMatchIdx, hnone], by simp⟩
    · have hne : u ≠ a := by
        rintro rfl
        exact (List.nodup_cons.mp hnd).1 hus
      rcases ih (List.nodup_cons.mp hnd).2 hus with ⟨i, hli, hei⟩
      refine ⟨i + 1, by simp [lastMatchIdx, hli], ?_⟩
      rw [List.eraseIdx_cons_succ, hei, List.erase_cons_tail]
      simp [hne]

/-- C2: the grouped-meta merge of `create_new`.  An acting user already in
the stored list is popped and `users_count` kept; a new actor is prepended
and `users_count` incremented; either way the actor comes first and the
visible list keeps at most `MAX_GROUP_USERS = 3` entries — the most recent
ones, the oldest beyond the cap being dropped while the count keeps the
total.  Concretely, three distinct likes on one slot give one unread row
with `users_count = 3` and list `[c, b, a]`; a fourth distinct like raises
the count to 4 while the list becomes `[d, c, b]`, dropping the oldest. -/
theorem c2_merge_meta_users (actor : String) (users : List String) (count : Nat)
    (hnd : users.Nodup) :
    (mergeUsers actor users count).1.head? = some actor ∧
    (mergeUsers actor users count).1.length ≤ MAX_GROUP_USERS ∧
    (actor ∈ users →
      mergeUsers actor users count = (actor :: (users.erase actor).take 2, count)) ∧
    (actor ∉ users →
      mergeUsers actor users count = (actor :: users.take 2, count + 1)) ∧
    ((create_new (create_new (create_new [] 1 "u" .LIKE_ON_CONTENT "a" 7 false false 1).2.1
        2 "u" .LIKE_ON_CONTENT "b" 7 false false 2).2.1
        2 "u" .LIKE_ON_CONTENT "c" 7 false false 3).2.1 =
      [⟨1, "u", .LIKE_ON_CONTENT, 7, 3, none, EPOCH, ["c", "b", "a"], 3⟩]) ∧
    ((create_new [⟨1, "u", .LIKE_ON_CONTENT, 7, 3, none, EPOCH, ["c", "b", "a"], 3⟩]
        2 "u" .LIKE_ON_CONTENT "d" 7 false false 4).2.1 =
      [⟨1, "u", .LIKE_ON_CONTENT, 7, 4, none, EPOCH, ["d", "c", "b"], 4⟩]) := by
  refine ⟨?_, ?_, ?_, ?_, by rfl, by rfl⟩
  · cases h : lastMatchIdx actor users <;> simp [mergeUsers, h]
  · cases h : lastMatchIdx actor users <;>
      simp only [mergeUsers, h, List.length_cons, List.length_take, MAX_GROUP_USERS] <;>
      omega
  · intro hmem
    rcases lastMatchIdx_eraseIdx actor users hnd hmem with ⟨i, hli, hei⟩
    simp [mergeUsers, hli, hei, MAX_GROUP_USERS]
  · intro hmem
    have hnone : lastMatchIdx actor users = none := (lastMatchIdx_eq_none actor users).mpr hmem
    simp [mergeUsers, hnone, MAX_GROUP_USERS]

/-- Witness for C2: merging actor `"b"`, already stored in `["b", "a"]`,
pops the old entry and keeps the count. -/
theorem c2_merge_meta_users_witness :
    mergeUsers "b" ["b", "a"] 2 = ("b" :: (["b", "a"].erase "b").take 2, 2) :=
  (c2_merge_meta_users "b" ["b", "a"] 2 (by decide)).2.2.1 (by decide)

/-- C9: on every merge `create_new` refreshes the matched row's
`notified_at` to `now`, except exactly when the event is a
`NEW_CONNECTION_REQ` processed with `force_update`, where the old value is
kept (notification.py:196-201 pops the key before the update). -/
theorem c9_notified_at_refresh (db : List NotifRow) (nextId : Nat) (uid actor : String)
    (ntype : NotificationType) (entity : Nat) (fu : Bool) (now : Time) (o : NotifRow)
    (h : (notifMatches db uid ntype entity).head? = some o) :
    (∃ o', (create_new db nextId uid ntype actor entity fu false now).1 = some o' ∧
      o'.notified_at =
        if fu = true ∧ ntype = NotificationType.NEW_CONNECTION_REQ then o.notified_at
        else now) ∧
    (∀ r ∈ (create_new db nextId uid ntype actor entity fu false now).2.1,
      r.id = o.id →
        r.notified_at =
          if fu = true ∧ ntype = NotificationType.NEW_CONNECTION_REQ then o.notified_at
          else now) := by
  constructor
  · simp only [create_new, h]
    exact ⟨_, rfl, rfl⟩
  · intro r hr hrid
    simp only [create_new, h] at hr
    rcases List.mem_map.mp hr with ⟨y, _, rfl⟩
    by_cases hy : y.id = o.id
    · rw [if_pos (by simp [hy])]
    · rw [if_neg (by simp [hy])] at hrid ⊢
      exact absurd hrid hy

/-- Witness for C9, both sides of the exception: a `NEW_CONNECTION_REQ`
merge under `force_update` keeps `notified_at = 3`, and a like merge at time
9 refreshes it to 9. -/
theorem c9_notified_at_refresh_witness :
    (∃ o', (create_new [⟨1, "u", .NEW_CONNECTION_REQ, 5, 3, none, EPOCH, [], 0⟩]
        2 "u" .NEW_CONNECTION_REQ "b" 5 true false 9).1 = some o' ∧
      o'.notified_at =
        if true = true ∧ NotificationType.NEW_CONNECTION_REQ = NotificationType.NEW_CONNECTION_REQ
        then (3 : Time) else 9) ∧
    (∃ o', (create_new [⟨1, "u", .LIKE_ON_CONTENT, 7, 3, some 4, EPOCH, ["a"], 1⟩]
        2 "u" .LIKE_ON_CONTENT "b" 7 false false 9).1 = some o' ∧
      o'.notified_at =
        if false = true ∧ NotificationType.LIKE_ON_CONTENT = NotificationType.NEW_CONNECTION_REQ
        then (3 : Time) else 9) :=
  ⟨(c9_notified_at_refresh [⟨1, "u", .NEW_CONNECTION_REQ, 5, 3, none, EPOCH, [], 0⟩]
      2 "u" "b" .NEW_CONNECTION_REQ 5 true 9 ⟨1, "u", .NEW_CONNECTION_REQ, 5, 3, none, EPOCH, [], 0⟩
      (by rfl)).1,
   (c9_notified_at_refresh [⟨1, "u", .LIKE_ON_CONTENT, 7, 3, some 4, EPOCH, ["a"], 1⟩]
      2 "u" "b" .LIKE_ON_CONTENT 7 false 9 ⟨1, "u", .LIKE_ON_CONTENT, 7, 3, some 4, EPOCH, ["a"], 1⟩
      (by rfl)).1⟩

/-! ### Lemmas about the append-if-absent step of the comment formatter

`addL1`, `addL2` and `addL3` all have the shape
`if ns.any (fun n => n.id == i) then ns else ns ++ [fresh]`; the following
lemmas are stated once over that shape, parameterized by the id
projection. -/

/-- The added id is present afterwards. -/
theorem mem_map_addIf {α : Type} (idf : α → Nat) (ns : List α) (fresh : α) (i : Nat)
    (hfresh : idf fresh = i) :
    i ∈ (if ns.any (fun n => idf n == i) then ns else ns ++ [fresh]).map idf := by
  by_cases h : ns.any (fun n => idf n == i) = true
  · rcases List.any_eq_true.mp h with ⟨n, hn, hni⟩
    rw [if_pos h]
    exact List.mem_map.mpr ⟨n, hn, by simpa using hni⟩
  · rw [if_neg h]
    simp [hfresh]

/-- Already-present ids stay present. -/
theorem mem_map_mono_addIf {α : Type} (idf : α → Nat) (ns : List α) (fresh : α)
    (i a : Nat) (h : a ∈ ns.map idf) :
    a ∈ (if ns.any (fun n => idf n == i) then ns else ns ++ [fresh]).map idf := by
  by_cases hc : ns.any (fun n => idf n == i) = true
  · rwa [if_pos hc]
  · rw [if_neg hc]
    simp only [List.map_append, List.mem_append]
    exact Or.inl h

/-- A successful `find?` is unchanged by the append. -/
theorem find?_addIf {α : Type} (idf : α → Nat) (ns : List α) (fresh : α) (i a : Nat)
    (x : α) (h : ns.find? (fun n => idf n == a) = some x) :
    (if ns.any (fun n => idf n == i) then ns else ns ++ [fresh]).find?
      (fun n => idf n == a) = some x := by
  by_cases hc : ns.any (fun n => idf n == i) = true
  · rwa [if_pos hc]
  · rw [if_neg hc, List.find?_append, h]
    rfl

/-- A present id is found, and the found node carries it. -/
theorem exists_find?_of_mem_map {α : Type} (idf : α → Nat) (ns : List α) (a : Nat)
    (h : a ∈ ns.map idf) :
    ∃ x, ns.find? (fun n => idf n == a) = some x ∧ idf x = a := by
  rcases List.mem_map.mp h with ⟨n, hn, hni⟩
  have hsome : (ns.find? (fun n => idf n == a)).isSome = true :=
    List.find?_isSome.mpr ⟨n, hn, by simp [hni]⟩
  cases hf : ns.find? (fun n => idf n == a) with
  | none => rw [hf] at hsome; simp at hsome
  | some x => exact ⟨x, rfl, by simpa using List.find?_some hf⟩

/-- The id list stays duplicate-free: the fresh node is only appended when
its id is absent. -/
theorem nodup_map_addIf {α : Type} (idf : α → Nat) (ns : List α) (fresh : α) (i : Nat)
    (hfresh : idf fresh = i) (h : (ns.map idf).Nodup) :
    ((if ns.any (fun n => idf n == i) then ns else ns ++ [fresh]).map idf).Nodup := by
  by_cases hc : ns.any (fun n => idf n == i) = true
  · rwa [if_pos hc]
  · rw [if_neg hc, List.map_append]
    refine List.nodup_append.mpr ⟨h, by simp, ?_⟩
    intro x hx hx'
    simp only [List.map_cons, List.map_nil, List.mem_singleton] at hx'
    subst hx'
    rw [hfresh] at hx
    rcases List.mem_map.mp hx with ⟨n, hn, hni⟩
    exact absurd (List.any_eq_true.mpr ⟨n, hn, by simp [hni]⟩) hc

/-- Membership after the append-if-absent step: an old node or the fresh
one. -/
theorem mem_addIf {α : Type} (idf : α → Nat) (ns : List α) (fresh : α) (i : Nat)
    (x : α) (hx : x ∈ (if ns.any (fun n => idf n == i) then ns else ns ++ [fresh])) :
    x ∈ ns ∨ x = fresh := by
  by_cases hc : ns.any (fun n => idf n == i) = true
  · rw [if_pos hc] at hx
    exact Or.inl hx
  · rw [if_neg hc] at hx
    rcases List.mem_append.mp hx with h | h
    · exact Or.inl h
    · exact Or.inr (by simpa using h)

/-- `find?` by id commutes with mapping an id-preserving function. -/
theorem find?_map_idpres {α : Type} (idf : α → Nat) (f : α → α)
    (hf : ∀ n, idf (f n) = idf n) (ns : List α) (a : Nat) :
    (ns.map f).find? (fun n => idf n == a) =
      (ns.find? (fun n => idf n == a)).map f := by
  induction ns with
  | nil => rfl
  | cons n ns ih =>
    by_cases h : idf n = a
    · rw [List.map_cons, List.find?_cons_of_pos _ (by simp [hf, h]),
        List.find?_cons_of_pos _ (by simp [h])]
      rfl
    · rw [List.map_cons, List.find?_cons_of_neg _ (by simp [hf, h]),
        List.find?_cons_of_neg _ (by simp [h]), ih]

/-- Mapping an id-preserving function leaves the id list unchanged. -/
theorem map_idf_map_idpres {α : Type} (idf : α → Nat) (f : α → α)
    (hf : ∀ n, idf (f n) = idf n) (l : List α) :
    (l.map f).map idf = l.map idf := by
  rw [List.map_map]
  exact List.map_congr_left (fun n _ => hf n)

/-- The per-node update of `addL2At` keeps the level-1 id. -/
theorem addL2At_id_pres (a j : Nat) : ∀ n : L1Node,
    (if n.id == a then (⟨n.id, addL2 n.comments j⟩ : L1Node) else n).id = n.id := by
  intro n
  by_cases h : (n.id == a) = true
  · rw [if_pos h]
  · rw [if_neg h]

/-- The per-node update of `addL3At` keeps the level-1 id. -/
theorem addL3At_id_pres (a b k : Nat) : ∀ n : L1Node,
    (if n.id == a then
      (⟨n.id, n.comments.map fun m =>
        if m.id == b then (⟨m.id, addL3 m.comments k⟩ : L2Node) else m⟩ : L1Node)
    else n).id = n.id := by
  intro n
  by_cases h : (n.id == a) = true
  · rw [if_pos h]
  · rw [if_neg h]

/-- The inner per-node update of `addL3At` keeps the level-2 id. -/
theorem addL3At_inner_id_pres (b k : Nat) : ∀ m : L2Node,
    (if m.id == b then (⟨m.id, addL3 m.comments k⟩ : L2Node) else m).id = m.id := by
  intro m
  by_cases h : (m.id == b) = true
  · rw [if_pos h]
  · rw [if_neg h]

/-- `addL2At` does not change the level-1 id list. -/
theorem l1Ids_addL2At (ns : List L1Node) (a j : Nat) :
    l1Ids (addL2At ns a j) = l1Ids ns := by
  simp only [l1Ids, addL2At]
  exact map_idf_map_idpres L1Node.id _ (addL2At_id_pres a j) ns

/-- `addL3At` does not change the level-1 id list. -/
theorem l1Ids_addL3At (ns : List L1Node) (a b k : Nat) :
    l1Ids (addL3At ns a b k) = l1Ids ns := by
  simp only [l1Ids, addL3At]
  exact map_idf_map_idpres L1Node.id _ (addL3At_id_pres a b k) ns

/-- `addL1` preserves level-2 child lists. -/
theorem l2IdsUnder_addL1_mono (ns : List L1Node) (i a b : Nat)
    (h : b ∈ l2IdsUnder ns a) : b ∈ l2IdsUnder (addL1 ns i) a := by
  cases hf : ns.find? (fun n => n.id == a) with
  | none => simp [l2IdsUnder, hf] at h
  | some n =>
    simp only [l2IdsUnder, hf] at h
    have h1 : (addL1 ns i).find? (fun n => n.id == a) = some n :=
      find?_addIf L1Node.id ns ⟨i, []⟩ i a n hf
    simp only [l2IdsUnder, h1]
    exact h

/-- `addL2At` registers the new level-2 id under its level-1 node. -/
theorem l2IdsUnder_addL2At_self (ns : List L1Node) (a j : Nat) (ha : a ∈ l1Ids ns) :
    j ∈ l2IdsUnder (addL2At ns a j) a := by
  rcases exists_find?_of_mem_map L1Node.id ns a ha with ⟨n, hf, hid⟩
  have hmap := find?_map_idpres L1Node.id _ (addL2At_id_pres a j) ns a
  simp only [l2IdsUnder, addL2At, hmap, hf, Option.map_some']
  rw [if_pos (by simp [hid])]
  exact mem_map_addIf L2Node.id n.comments ⟨j, []⟩ j rfl

/-- `addL2At` preserves existing level-2 child ids. -/
theorem l2IdsUnder_addL2At_mono (ns : List L1Node) (a' j a b : Nat)
    (h : b ∈ l2IdsUnder ns a) : b ∈ l2IdsUnder (addL2At ns a' j) a := by
  cases hf : ns.find? (fun n => n.id == a) with
  | none => simp [l2IdsUnder, hf] at h
  | some n =>
    simp only [l2IdsUnder, hf] at h
    have hmap := find?_map_idpres L1Node.id _ (addL2At_id_pres a' j) ns a
    simp only [l2IdsUnder, addL2At, hmap, hf, Option.map_some']
    by_cases hc : (n.id == a') = true
    · rw [if_pos hc]
      exact mem_map_mono_addIf L2Node.id n.comments ⟨j, []⟩ j b h
    · rw [if_neg hc]
      exact h

/-- `addL3At` does not change level-2 child id lists. -/
theorem l2IdsUnder_addL3At (ns : List L1Node) (a' b' k a : Nat) :
    l2IdsUnder (addL3At ns a' b' k) a = l2IdsUnder ns a := by
  cases hf : ns.find? (fun n => n.id == a) with
  | none =>
    have hmap := find?_map_idpres L1Node.id _ (addL3At_id_pres a' b' k) ns a
    simp only [l2IdsUnder, addL3At, hmap, hf, Option.map_none']
  | some n =>
    have hmap := find?_map_idpres L1Node.id _ (addL3At_id_pres a' b' k) ns a
    simp only [l2IdsUnder, addL3At, hmap, hf, Option.map_some']
    by_cases hc : (n.id == a') = true
    · rw [if_pos hc]
      exact map_idf_map_idpres L2Node.id _ (addL3At_inner_id_pres b' k) n.comments
    · rw [if_neg hc]

/-- `addL1` preserves level-3 child lists. -/
theorem l3IdsUnder_addL1_mono (ns : List L1Node) (i a b c : Nat)
    (h : c ∈ l3IdsUnder ns a b) : c ∈ l3IdsUnder (addL1 ns i) a b := by
  cases hf : ns.find? (fun n => n.id == a) with
  | none => simp [l3IdsUnder, hf] at h
  | some n =>
    simp only [l3IdsUnder, hf] at h
    have h1 : (addL1 ns i).find? (fun n => n.id == a) = some n :=
      find?_addIf L1Node.id ns ⟨i, []⟩ i a n hf
    simp only [l3IdsUnder, h1]
    exact h

/-- `addL2At` preserves level-3 child lists. -/
theorem l3IdsUnder_addL2At_mono (ns : List L1Node) (a' j a b c : Nat)
    (h : c ∈ l3IdsUnder ns a b) : c ∈ l3IdsUnder (addL2At ns a' j) a b := by
  cases hf : ns.find? (fun n => n.id == a) with
  | none => simp [l3IdsUnder, hf] at h
  | some n =>
    cases hg : n.comments.find? (fun m => m.id == b) with
    | none => simp [l3IdsUnder, hf, hg] at h
    | some m =>
      simp only [l3IdsUnder, hf, hg] at h
      have hmap := find?_map_idpres L1Node.id _ (addL2At_id_pres a' j) ns a
      simp only [l3IdsUnder, addL2At, hmap, hf, Option.map_some']
      by_cases hc : (n.id == a') = true
      · rw [if_pos hc]
        have h2 : (addL2 n.comments j).find? (fun m => m.id == b) = some m :=
          find?_addIf L2Node.id n.comments ⟨j, []⟩ j b m hg
        simp only [h2]
        exact h
      · rw [if_neg hc]
        simp only [hg]
        exact h

/-- `addL3At` preserves existing level-3 child ids. -/
theorem l3IdsUnder_addL3At_mono (ns : List L1Node) (a' b' k a b c : Nat)
    (h : c ∈ l3IdsUnder ns a b) : c ∈ l3IdsUnder (addL3At ns a' b' k) a b := by
  cases hf : ns.find? (fun n => n.id == a) with
  | none => simp [l3IdsUnder, hf] at h
  | some n =>
    cases hg : n.comments.find? (fun m => m.id == b) with
    | none => simp [l3IdsUnder, hf, hg] at h
    | some m =>
      simp only [l3IdsUnder, hf, hg] at h
      have hmap := find?_map_idpres L1Node.id _ (addL3At_id_pres a' b' k) ns a
      simp only [l3IdsUnder, addL3At, hmap, hf, Option.map_some']
      by_cases hc : (n.id == a') = true
      · rw [if_pos hc]
        have hmap2 := find?_map_idpres L2Node.id _ (addL3At_inner_id_pres b' k) n.comments b
        simp only [hmap2, hg, Option.map_some']
        by_cases hm : (m.id == b') = true
        · rw [if_pos hm]
          exact mem_map_mono_addIf L3Node.id m.comments ⟨k⟩ k c h
        · rw [if_neg hm]
          exact h
      · rw [if_neg hc]
        simp only [hg]
        exact h

/-- `addL3At` registers the new level-3 id under its level-2 parent. -/
theorem l3IdsUnder_addL3At_self (ns : List L1Node) (a b k : Nat)
    (ha : a ∈ l1Ids ns) (hb : b ∈ l2IdsUnder ns a) :
    k ∈ l3IdsUnder (addL3At ns a b k) a b := by
  rcases exists_find?_of_mem_map L1Node.id ns a ha with ⟨n, hf, hid⟩
  simp only [l2IdsUnder, hf] at hb
  rcases exists_find?_of_mem_map L2Node.id n.comments b hb with ⟨m, hg, hmid⟩
  have hmap := find?_map_idpres L1Node.id _ (addL3At_id_pres a b k) ns a
  simp only [l3IdsUnder, addL3At, hmap, hf, Option.map_some']
  rw [if_pos (by simp [hid])]
  have hmap2 := find?_map_idpres L2Node.id _ (addL3At_inner_id_pres b k) n.comments b
  simp only [hmap2, hg, Option.map_some']
  rw [if_pos (by simp [hmid])]
  exact mem_map_addIf L3Node.id m.comments ⟨k⟩ k rfl

/-- `addL1` keeps every level duplicate-free. -/
theorem nodupLevels_addL1 (ns : List L1Node) (i : Nat) (h : NodupLevels ns) :
    NodupLevels (addL1 ns i) := by
  refine ⟨nodup_map_addIf L1Node.id ns ⟨i, []⟩ i rfl h.1, ?_⟩
  intro n hn
  rcases mem_addIf L1Node.id ns ⟨i, []⟩ i n hn with hmem | rfl
  · exact h.2 n hmem
  · exact ⟨by simp, by simp⟩

/-- `addL2At` keeps every level duplicate-free. -/
theorem nodupLevels_addL2At (ns : List L1Node) (a j : Nat) (h : NodupLevels ns) :
    NodupLevels (addL2At ns a j) := by
  constructor
  · have he := l1Ids_addL2At ns a j
    simp only [l1Ids] at he
    rw [he]
    exact h.1
  · intro n' hn'
    rcases List.mem_map.mp hn' with ⟨n, hn, rfl⟩
    by_cases hc : (n.id == a) = true
    · rw [if_pos hc]
      refine ⟨nodup_map_addIf L2Node.id n.comments ⟨j, []⟩ j rfl (h.2 n hn).1, ?_⟩
      intro m hm
      rcases mem_addIf L2Node.id n.comments ⟨j, []⟩ j m hm with hmem | rfl
      · exact (h.2 n hn).2 m hmem
      · simp
    · rw [if_neg hc]
      exact h.2 n hn

/-- `addL3At` keeps every level duplicate-free. -/
theorem nodupLevels_addL3At (ns : List L1Node) (a b k : Nat) (h : NodupLevels ns) :
    NodupLevels (addL3At ns a b k) := by
  constructor
  · have he := l1Ids_addL3At ns a b k
    simp only [l1Ids] at he
    rw [he]
    exact h.1
  · intro n' hn'
    rcases List.mem_map.mp hn' with ⟨n, hn, rfl⟩
    by_cases hc : (n.id == a) = true
    · rw [if_pos hc]
      constructor
      · have := map_idf_map_idpres L2Node.id _ (addL3At_inner_id_pres b k) n.comments
        simp only [this]
        exact (h.2 n hn).1
      · intro m' hm'
        rcases List.mem_map.mp hm' with ⟨m, hm, rfl⟩
        by_cases hd : (m.id == b) = true
        · rw [if_pos hd]
          exact nodup_map_addIf L3Node.id m.comments ⟨k⟩ k rfl ((h.2 n hn).2 m hm)
        · rw [if_neg hd]
          exact (h.2 n hn).2 m hm
    · rw [if_neg hc]
      exact h.2 n hn

/-- Soundness of the level-1 block: levels stay duplicate-free, existing
placements survive, and a truthy `l1_id` ends up among the top-level nodes
with the context variable pointing at it. -/
theorem fmtStep1_sound (st : FmtState) (r : FlatRow) (h : NodupLevels st.out) :
    NodupLevels (fmtStep1 st r).out ∧
    (∀ a, a ∈ l1Ids st.out → a ∈ l1Ids (fmtStep1 st r).out) ∧
    (∀ a b, b ∈ l2IdsUnder st.out a → b ∈ l2IdsUnder (fmtStep1 st r).out a) ∧
    (∀ a b c, c ∈ l3IdsUnder st.out a b → c ∈ l3IdsUnder (fmtStep1 st r).out a b) ∧
    (∀ i, truthyId r.l1_id = some i →
      i ∈ l1Ids (fmtStep1 st r).out ∧ (fmtStep1 st r).cur1 = some i) := by
  cases h1 : truthyId r.l1_id with
  | none =>
    simp only [fmtStep1, h1]
    exact ⟨h, fun a ha => ha, fun a b hb => hb, fun a b c hc => hc,
      fun i hi => by simp at hi⟩
  | some i =>
    simp only [fmtStep1, h1]
    refine ⟨nodupLevels_addL1 st.out i h,
      fun a ha => mem_map_mono_addIf L1Node.id st.out ⟨i, []⟩ i a ha,
      fun a b hb => l2IdsUnder_addL1_mono st.out i a b hb,
      fun a b c hc => l3IdsUnder_addL1_mono st.out i a b c hc,
      fun i' hi' => ?_⟩
    have hii : i' = i := by simpa using hi'.symm
    rw [hii]
    exact ⟨mem_map_addIf L1Node.id st.out ⟨i, []⟩ i rfl, rfl⟩

/-- Soundness of the level-2 block: levels stay duplicate-free, existing
placements survive, and a truthy `l2_id` is filed under the level-1 node the
context variable points at, with the level-2 context updated. -/
theorem fmtStep2_sound (st : FmtState) (r : FlatRow) (h : NodupLevels st.out) :
    NodupLevels (fmtStep2 st r).out ∧
    (∀ a, a ∈ l1Ids st.out → a ∈ l1Ids (fmtStep2 st r).out) ∧
    (∀ a b, b ∈ l2IdsUnder st.out a → b ∈ l2IdsUnder (fmtStep2 st r).out a) ∧
    (∀ a b c, c ∈ l3IdsUnder st.out a b → c ∈ l3IdsUnder (fmtStep2 st r).out a b) ∧
    (∀ a j, truthyId r.l2_id = some j → st.cur1 = some a → a ∈ l1Ids st.out →
      j ∈ l2IdsUnder (fmtStep2 st r).out a ∧ (fmtStep2 st r).cur2 = some (a, j)) := by
  cases h2 : truthyId r.l2_id with
  | none =>
    simp only [fmtStep2, h2]
    exact ⟨h, fun a ha => ha, fun a b hb => hb, fun a b c hc => hc,
      fun a j hj => by simp at hj⟩
  | some j =>
    cases hc1 : st.cur1 with
    | none =>
      simp only [fmtStep2, h2, hc1]
      exact ⟨h, fun a ha => ha, fun a b hb => hb, fun a b c hc => hc,
        fun a j' _ hcur => by simp at hcur⟩
    | some a0 =>
      simp only [fmtStep2, h2, hc1]
      refine ⟨nodupLevels_addL2At st.out a0 j h,
        fun a ha => by rw [l1Ids_addL2At]; exact ha,
        fun a b hb => l2IdsUnder_addL2At_mono st.out a0 j a b hb,
        fun a b c hc => l3IdsUnder_addL2At_mono st.out a0 j a b c hc,
        fun a j' hj' hcur ha => ?_⟩
      have hjj : j' = j := by simpa using hj'.symm
      have haa : a = a0 := by simpa using hcur.symm
      rw [haa] at ha
      rw [hjj, haa]
      exact ⟨l2IdsUnder_addL2At_self st.out a0 j ha, rfl⟩

/-- Soundness of the level-3 block: levels stay duplicate-free, existing
placements survive, and a truthy `l3_id` is filed under the level-2 node the
context pair points at. -/
theorem fmtStep3_sound (st : FmtState) (r : FlatRow) (h : NodupLevels st.out) :
    NodupLevels (fmtStep3 st r).out ∧
    (∀ a, a ∈ l1Ids st.out → a ∈ l1Ids (fmtStep3 st r).out) ∧
    (∀ a b, b ∈ l2IdsUnder st.out a → b ∈ l2IdsUnder (fmtStep3 st r).out a) ∧
    (∀ a b c, c ∈ l3IdsUnder st.out a b → c ∈ l3IdsUnder (fmtStep3 st r).out a b) ∧
    (∀ a b k, truthyId r.l3_id = some k → st.cur2 = some (a, b) →
      a ∈ l1Ids st.out → b ∈ l2IdsUnder st.out a →
      k ∈ l3IdsUnder (fmtStep3 st r).out a b) := by
  cases h3 : truthyId r.l3_id with
  | none =>
    simp only [fmtStep3, h3]
    exact ⟨h, fun a ha => ha, fun a b hb => hb, fun a b c hc => hc,
      fun a b k hk => by simp at hk⟩
  | some k =>
    cases hc2 : st.cur2 with
    | none =>
      simp only [fmtStep3, h3, hc2]
      exact ⟨h, fun a ha => ha, fun a b hb => hb, fun a b c hc => hc,
        fun a b k' _ hcur => by simp at hcur⟩
    | some ab =>
      obtain ⟨a0, b0⟩ := ab
      simp only [fmtStep3, h3, hc2]
      refine ⟨nodupLevels_addL3At st.out a0 b0 k h,
        fun a ha => by rw [l1Ids_addL3At]; exact ha,
        fun a b hb => by rw [l2IdsUnder_addL3At]; exact hb,
        fun a b c hc => l3IdsUnder_addL3At_mono st.out a0 b0 k a b c hc,
        fun a b k' hk' hcur ha hb => ?_⟩
      have hkk : k' = k := by simpa using hk'.symm
      have hab : a0 = a ∧ b0 = b := by simpa using hcur
      rw [← hab.1] at ha
      rw [← hab.1, ← hab.2] at hb
      rw [hkk, ← hab.1, ← hab.2]
      exact l3IdsUnder_addL3At_self st.out a0 b0 k ha hb

/-- One loop iteration keeps the output well-formed, preserves all existing
placements, and links the current row's ids. -/
theorem fmtStep_sound (st : FmtState) (r : FlatRow) (h : NodupLevels st.out) :
    NodupLevels (fmtStep st r).out ∧
    (∀ a, a ∈ l1Ids st.out → a ∈ l1Ids (fmtStep st r).out) ∧
    (∀ a b, b ∈ l2IdsUnder st.out a → b ∈ l2IdsUnder (fmtStep st r).out a) ∧
    (∀ a b c, c ∈ l3IdsUnder st.out a b → c ∈ l3IdsUnder (fmtStep st r).out a b) ∧
    RowLinked r (fmtStep st r).out := by
  obtain ⟨hn1, hm1a, hm1b, hm1c, he1⟩ := fmtStep1_sound st r h
  obtain ⟨hn2, hm2a, hm2b, hm2c, he2⟩ := fmtStep2_sound (fmtStep1 st r) r hn1
  obtain ⟨hn3, hm3a, hm3b, hm3c, he3⟩ := fmtStep3_sound (fmtStep2 (fmtStep1 st r) r) r hn2
  refine ⟨hn3,
    fun a ha => hm3a a (hm2a a (hm1a a ha)),
    fun a b hb => hm3b a b (hm2b a b (hm1b a b hb)),
    fun a b c hc => hm3c a b c (hm2c a b c (hm1c a b c hc)),
    ?_, ?_, ?_⟩
  · intro a ha
    exact hm3a a (hm2a a (he1 a ha).1)
  · intro a b ha hb
    obtain ⟨hmem1, hcur1⟩ := he1 a ha
    obtain ⟨hmem2, _⟩ := he2 a b hb hcur1 hmem1
    exact hm3b a b hmem2
  · intro a b c ha hb hc
    obtain ⟨hmem1, hcur1⟩ := he1 a ha
    obtain ⟨hmem2, hcur2⟩ := he2 a b hb hcur1 hmem1
    exact he3 a b c hc hcur2 (hm2a a hmem1) hmem2

/-- The loop invariant of `format_nested_comments`: over any suffix of rows,
levels stay duplicate-free, placements are never removed, and each processed
row ends up linked in the final output. -/
theorem foldl_fmtStep_sound (rows : List FlatRow) (st : FmtState)
    (h : NodupLevels st.out) :
    NodupLevels (rows.foldl fmtStep st).out ∧
    (∀ a, a ∈ l1Ids st.out → a ∈ l1Ids (rows.foldl fmtStep st).out) ∧
    (∀ a b, b ∈ l2IdsUnder st.out a → b ∈ l2IdsUnder (rows.foldl fmtStep st).out a) ∧
    (∀ a b c, c ∈ l3IdsUnder st.out a b → c ∈ l3IdsUnder (rows.foldl fmtStep st).out a b) ∧
    (∀ r ∈ rows, RowLinked r (rows.foldl fmtStep st).out) := by
  induction rows generalizing st with
  | nil =>
    exact ⟨h, fun a ha => ha, fun a b hb => hb, fun a b c hc => hc, by simp⟩
  | cons r rows ih =>
    obtain ⟨hn, hma, hmb, hmc, hlink⟩ := fmtStep_sound st r h
    obtain ⟨ihn, ihma, ihmb, ihmc, ihlink⟩ := ih (fmtStep st r) hn
    simp only [List.foldl_cons]
    refine ⟨ihn,
      fun a ha => ihma a (hma a ha),
      fun a b hb => ihmb a b (hmb a b hb),
      fun a b c hc => ihmc a b c (hmc a b c hc),
      ?_⟩
    intro r' hr'
    rcases List.mem_cons.mp hr' with rfl | hmem
    · exact ⟨fun a ha => ihma a (hlink.1 a ha),
        fun a b ha hb => ihmb a b (hlink.2.1 a b ha hb),
        fun a b c ha hb hc => ihmc a b c (hlink.2.2 a b c ha hb hc)⟩
    · exact ihlink r' hmem

/-- C3: `format_nested_comments` folds the flattened rows into a tree where
every id yields exactly one node at its level — duplicate-free levels
(`NodupLevels`) plus, for every row, its level-1 id present as a top node,
its level-2 id a child of exactly that node, and its level-3 id a child of
that level-2 node (`RowLinked`).  On the concrete rows of a thread root with
two replies, the second carrying one level-3 reply, the output is exactly
two top-level nodes, the second with exactly one child. -/
theorem c3_format_nested_comments (rows : List FlatRow) :
    NodupLevels (format_nested_comments rows) ∧
    (∀ r ∈ rows, RowLinked r (format_nested_comments rows)) ∧
    format_nested_comments [⟨some 10, none, none⟩, ⟨some 11, some 20, none⟩] =
      [⟨10, []⟩, ⟨11, [⟨20, []⟩]⟩] := by
  have h0 : NodupLevels (⟨[], none, none⟩ : FmtState).out := ⟨by simp, by simp⟩
  obtain ⟨hn, _, _, _, hlink⟩ := foldl_fmtStep_sound rows ⟨[], none, none⟩ h0
  exact ⟨hn, hlink, rfl⟩

/-- Witness for C3: on the concrete two-row input the level-2 id 20 is filed
under the level-1 node 11. -/
theorem c3_format_nested_comments_witness :
    20 ∈ l2IdsUnder
      (format_nested_comments [⟨some 10, none, none⟩, ⟨some 11, some 20, none⟩]) 11 :=
  ((c3_format_nested_comments [⟨some 10, none, none⟩, ⟨some 11, some 20, none⟩]).2.1
    ⟨some 11, some 20, none⟩ (by simp)).2.1 11 20 rfl rfl

end Crud
